import Mathlib

/-!
Verification of the state-synchronization and combat-resolution core of the
3D pen-fighting multiplayer game.  The definitions below are a shallow
embedding of the source logic in `GameModeSelector.tsx` (the `GameArena`
component), `SpectatorMode.tsx`, and the shared type declarations.

Numbers: JavaScript floating-point coordinates are embedded as rationals,
timestamps as integers, and damage values as naturals (every damage value
the protocol publishes is `min(points.length * 2, 25)`).

Runtime player objects: TypeScript declares `Player` with an integer
`health` field, but at runtime the `player_move` reducer case spreads a
possibly-absent entry (`...prev.players[id]`), producing an object that
carries only `position` and `rotation`.  We therefore embed `health` and
`maxHealth` as `Option Int` (`none` standing for a missing field, whose
JavaScript comparisons via `NaN` are all false); fields that no embedded
operation reads on such degenerate entries keep plain types with inert
defaults.
-/

namespace PenFight

/-- A 3D point or vector with rational coordinates. -/
structure Vec3 where
  x : ℚ
  y : ℚ
  z : ℚ
deriving DecidableEq

/-- Squared Euclidean distance between two points.  The source compares
`Math.sqrt(d2) < 0.8`; for a nonnegative radicand this is equivalent to
`d2 < 0.64`, which is how the test is embedded over the rationals. -/
def dist2 (a b : Vec3) : ℚ :=
  (a.x - b.x) ^ 2 + (a.y - b.y) ^ 2 + (a.z - b.z) ^ 2

/-- The five power-up kinds of the source enumeration. -/
inductive PowerUpType
  | speed
  | damage
  | health
  | shield
  | multishot
deriving DecidableEq

/-- An active power-up effect attached to a player
(`ActivePowerUp` in the source types). -/
structure ActivePowerUp where
  type : PowerUpType
  endTime : ℤ
  multiplier : ℚ
deriving DecidableEq

/-- A drawn attack stroke (`PenStroke` in the source types). -/
structure PenStroke where
  id : String
  points : List Vec3
  color : String
  thickness : ℚ
  timestamp : ℤ
deriving DecidableEq

/-- A spawned world power-up instance (`PowerUpData` in the source types). -/
structure PowerUpData where
  id : String
  type : PowerUpType
  position : Vec3
  timestamp : ℤ
  duration : ℤ
deriving DecidableEq

/-- A runtime player-map entry.  `health` and `maxHealth` are optional
because the `player_move` case can fabricate an entry carrying neither
(see the module comment); every other field either is always present or is
never read by the embedded operations on fabricated entries. -/
structure Entry where
  id : String
  name : String
  position : Vec3
  rotation : Vec3
  health : Option ℤ
  maxHealth : Option ℤ
  color : String
  isDrawing : Bool
  penStrokes : List PenStroke
  activePowerUps : List ActivePowerUp
  score : ℤ
  kills : ℤ
  deaths : ℤ
deriving DecidableEq

/-- JavaScript objects keyed by strings are embedded as association lists
in insertion order (which is exactly the enumeration order of
`Object.values` and `Object.keys` for string keys). -/
def lookup (m : List (String × α)) (k : String) : Option α :=
  (m.find? (fun e => e.1 = k)).map (fun e => e.2)

/-- The update pattern `if (m[k]) m[k] = f(m[k])`: apply `f` to the entry
at `k` when present, leave the map unchanged otherwise. -/
def mapVal (m : List (String × α)) (k : String) (f : α → α) : List (String × α) :=
  m.map (fun e => if e.1 = k then (e.1, f e.2) else e)

/-- The spread pattern `({...m, [k]: v})`: replace the value at `k` in
place when the key exists, append the binding otherwise. -/
def setKey (m : List (String × α)) (k : String) (v : α) : List (String × α) :=
  if (lookup m k).isSome then mapVal m k (fun _ => v) else m ++ [(k, v)]

/-- The pattern `delete m[k]`. -/
def delKey (m : List (String × α)) (k : String) : List (String × α) :=
  m.filter (fun e => ¬ e.1 = k)

theorem lookup_nil (k : String) : lookup ([] : List (String × α)) k = none := rfl

theorem lookup_cons (e : String × α) (m : List (String × α)) (k : String) :
    lookup (e :: m) k = if e.1 = k then some e.2 else lookup m k := by
  by_cases h : e.1 = k <;> simp [lookup, List.find?, h]

theorem mapVal_nil (k : String) (f : α → α) : mapVal ([] : List (String × α)) k f = [] := rfl

theorem mapVal_cons (e : String × α) (m : List (String × α)) (k : String) (f : α → α) :
    mapVal (e :: m) k f = (if e.1 = k then (e.1, f e.2) else e) :: mapVal m k f := by
  by_cases h : e.1 = k <;> simp [mapVal, h]

theorem delKey_nil (k : String) : delKey ([] : List (String × α)) k = [] := rfl

theorem delKey_cons (e : String × α) (m : List (String × α)) (k : String) :
    delKey (e :: m) k = if e.1 = k then delKey m k else e :: delKey m k := by
  by_cases h : e.1 = k <;> simp [delKey, List.filter_cons, h]

theorem lookup_mapVal_self (m : List (String × α)) (k : String) (f : α → α) :
    lookup (mapVal m k f) k = (lookup m k).map f := by
  induction m with
  | nil => rfl
  | cons e m ih =>
      rw [mapVal_cons]
      by_cases h : e.1 = k
      · simp [lookup_cons, h]
      · rw [if_neg h, lookup_cons, lookup_cons, if_neg h, if_neg h, ih]

theorem lookup_mapVal_other (m : List (String × α)) (k k' : String) (f : α → α)
    (h : k' ≠ k) : lookup (mapVal m k f) k' = lookup m k' := by
  induction m with
  | nil => rfl
  | cons e m ih =>
      rw [mapVal_cons]
      by_cases he : e.1 = k
      · have he' : ¬ e.1 = k' := by rw [he]; exact Ne.symm h
        rw [if_pos he, lookup_cons, lookup_cons, if_neg he', if_neg he', ih]
      · by_cases he' : e.1 = k'
        · rw [if_neg he, lookup_cons, lookup_cons, if_pos he', if_pos he']
        · rw [if_neg he, lookup_cons, lookup_cons, if_neg he', if_neg he', ih]

theorem lookup_append (m l : List (String × α)) (k : String) :
    lookup (m ++ l) k = match lookup m k with
      | some v => some v
      | none => lookup l k := by
  induction m with
  | nil => simp [lookup_nil]
  | cons e m ih =>
      by_cases h : e.1 = k <;>
        simp [List.cons_append, lookup_cons, h, ih]

theorem lookup_setKey_self (m : List (String × α)) (k : String) (v : α) :
    lookup (setKey m k v) k = some v := by
  unfold setKey
  by_cases h : (lookup m k).isSome
  · rw [if_pos h, lookup_mapVal_self]
    rcases Option.isSome_iff_exists.mp h with ⟨w, hw⟩
    rw [hw]; rfl
  · rw [if_neg h, lookup_append]
    rw [Option.not_isSome_iff_eq_none] at h
    rw [h]
    simp [lookup_cons]

theorem lookup_setKey_other (m : List (String × α)) (k k' : String) (v : α)
    (h : k' ≠ k) : lookup (setKey m k v) k' = lookup m k' := by
  unfold setKey
  by_cases hf : (lookup m k).isSome
  · rw [if_pos hf, lookup_mapVal_other m k k' _ h]
  · rw [if_neg hf, lookup_append]
    have : lookup [(k, v)] k' = none := by simp [lookup_cons, Ne.symm h, lookup_nil]
    rw [this]
    cases lookup m k' <;> rfl

theorem lookup_delKey_self (m : List (String × α)) (k : String) :
    lookup (delKey m k) k = none := by
  induction m with
  | nil => rfl
  | cons e m ih =>
      rw [delKey_cons]
      by_cases he : e.1 = k
      · rw [if_pos he]; exact ih
      · rw [if_neg he, lookup_cons, if_neg he]; exact ih

theorem lookup_delKey_other (m : List (String × α)) (k k' : String) (h : k' ≠ k) :
    lookup (delKey m k) k' = lookup m k' := by
  induction m with
  | nil => rfl
  | cons e m ih =>
      rw [delKey_cons]
      by_cases he : e.1 = k
      · have he' : ¬ e.1 = k' := by rw [he]; exact Ne.symm h
        rw [if_pos he, lookup_cons, if_neg he', ih]
      · by_cases he' : e.1 = k'
        · rw [if_neg he, lookup_cons, lookup_cons, if_pos he', if_pos he']
        · rw [if_neg he, lookup_cons, lookup_cons, if_neg he', if_neg he', ih]

/-- When no entry carries key `k`, the guarded update is the identity. -/
theorem mapVal_eq_of_notMem (m : List (String × α)) (k : String) (f : α → α)
    (h : ∀ e ∈ m, ¬ e.1 = k) : mapVal m k f = m := by
  induction m with
  | nil => rfl
  | cons e m ih =>
      have he : ¬ e.1 = k := h e (List.mem_cons_self e m)
      simp [mapVal, he]
      exact ih fun e' he' => h e' (List.mem_cons_of_mem e he')

/-- When no entry carries key `k`, deletion is the identity. -/
theorem delKey_eq_of_notMem (m : List (String × α)) (k : String)
    (h : ∀ e ∈ m, ¬ e.1 = k) : delKey m k = m := by
  induction m with
  | nil => rfl
  | cons e m ih =>
      have he : ¬ e.1 = k := h e (List.mem_cons_self e m)
      simp [delKey, List.filter, he]
      have := ih fun e' he' => h e' (List.mem_cons_of_mem e he')
      simpa [delKey] using this

/-- Absence of a key in terms of the entries of the list. -/
theorem lookup_eq_none_iff (m : List (String × α)) (k : String) :
    lookup m k = none ↔ ∀ e ∈ m, ¬ e.1 = k := by
  induction m with
  | nil => simp [lookup_nil]
  | cons e m ih =>
      by_cases he : e.1 = k <;> simp [lookup_cons, he, ih]

/-- Game lifecycle status enumeration. -/
inductive GameStatus
  | waiting
  | countdown
  | playing
  | finished
deriving DecidableEq

/-- The root aggregate, restricted to the fields the embedded operations
touch (`players`, `powerUps`) plus the lifecycle tag and room id. -/
structure GameState where
  players : List (String × Entry)
  powerUps : List (String × PowerUpData)
  gameStatus : GameStatus
  roomId : String
deriving DecidableEq

/-- The initial `GameArena` state: no players, no power-ups, waiting. -/
def initState (roomId : String) : GameState :=
  { players := [], powerUps := [], gameStatus := GameStatus.waiting, roomId := roomId }

/-- The inbound protocol messages dispatched by `handleGameMessage`.
Damage is a natural number: every `pen_stroke` the protocol publishes
carries `min(points.length * 2, 25)` and nothing in the source publishes
a `player_attack`.  `other` stands for the message types the switch has
no case for (`player_join`, `game_state`, ...), which are ignored. -/
inductive Msg
  | playerMove (playerId : String) (position rotation : Vec3)
  | penStroke (playerId : String) (stroke : PenStroke) (hitPlayers : List String) (damage : ℕ)
  | playerAttack (playerId : String) (targetId : String) (damage : ℕ)
  | powerUpSpawn (powerUp : PowerUpData)
  | powerUpCollect (playerId : String) (powerUpId : String) (effect : ActivePowerUp)
  | other
deriving DecidableEq

/-- JavaScript `Math.max` on two ordered integers, written out so that
it evaluates by kernel reduction. -/
def jsMax (a b : ℤ) : ℤ := if a ≤ b then b else a

theorem jsMax_eq_max (a b : ℤ) : jsMax a b = max a b := by
  unfold jsMax
  rcases le_total a b with h | h
  · rw [if_pos h, max_eq_right h]
  · by_cases h2 : a ≤ b
    · rw [if_pos h2, max_eq_right h2]
    · rw [if_neg h2, max_eq_left h]

/-- JavaScript `Math.max` on two ordered rationals. -/
def ratMax (a b : ℚ) : ℚ := if a ≤ b then b else a

/-- JavaScript `Math.min` on two ordered rationals. -/
def ratMin (a b : ℚ) : ℚ := if a ≤ b then a else b

theorem le_ratMax_left (a b : ℚ) : a ≤ ratMax a b := by
  unfold ratMax
  by_cases h : a ≤ b
  · rw [if_pos h]; exact h
  · rw [if_neg h]

/-- Health update `Math.max(0, health - damage)`.  A missing `health`
field stays missing: in JavaScript `undefined - d` is `NaN` and
`Math.max(0, NaN)` is `NaN`, which every later comparison treats as
false, so `none` is its faithful image. -/
def healthSub (h : Option ℤ) (d : ℕ) : Option ℤ :=
  h.map (fun x => jsMax 0 (x - (d : ℤ)))

/-- Entry update applying `healthSub` to the `health` field. -/
def decrEntry (d : ℕ) (e : Entry) : Entry :=
  { e with health := healthSub e.health d }

/-- The `hitPlayers.forEach` damage loop of the `pen_stroke` case:
each listed id, when present, takes the clamped decrement. -/
def decrAll (m : List (String × Entry)) (l : List String) (d : ℕ) :
    List (String × Entry) :=
  l.foldl (fun acc pid => mapVal acc pid (decrEntry d)) m

/-- The entry fabricated by the `player_move` case when the id is not
tracked: spreading an absent entry yields an object carrying only
`position` and `rotation`, so `health` and `maxHealth` are missing;
the remaining fields are inert defaults that no embedded operation
reads on such an entry. -/
def ghostEntry (pid : String) (pos rot : Vec3) : Entry :=
  { id := pid, name := "", position := pos, rotation := rot,
    health := none, maxHealth := none, color := "", isDrawing := false,
    penStrokes := [], activePowerUps := [], score := 0, kills := 0, deaths := 0 }

/-- The `player_move` case of `handleGameMessage`: spread the previous
entry (or fabricate one) with the carried position and rotation. -/
def applyMove (m : List (String × Entry)) (pid : String) (pos rot : Vec3) :
    List (String × Entry) :=
  setKey m pid (match lookup m pid with
    | some e => { e with position := pos, rotation := rot }
    | none => ghostEntry pid pos rot)

/-- The `pen_stroke` case shared by `GameArena.handleGameMessage` and
`SpectatorMode.handleGameMessage`: append the stroke to the author when
tracked, then, when the damage value is truthy (nonzero), apply the
clamped decrement to every listed hit player that is tracked. -/
def penStrokeUpdate (m : List (String × Entry)) (author : String)
    (stroke : PenStroke) (hitPlayers : List String) (damage : ℕ) :
    List (String × Entry) :=
  let m1 := mapVal m author (fun e => { e with penStrokes := e.penStrokes ++ [stroke] })
  if damage = 0 then m1 else decrAll m1 hitPlayers damage

/-- The reducer `handleGameMessage` of `GameArena`, one switch case per
message type; unknown types fall through unchanged. -/
def applyMsg (msg : Msg) (s : GameState) : GameState :=
  match msg with
  | Msg.playerMove pid pos rot =>
      { s with players := applyMove s.players pid pos rot }
  | Msg.penStroke author stroke hitPlayers damage =>
      { s with players := penStrokeUpdate s.players author stroke hitPlayers damage }
  | Msg.playerAttack _ targetId damage =>
      { s with players := mapVal s.players targetId (decrEntry damage) }
  | Msg.powerUpSpawn pu =>
      { s with powerUps := setKey s.powerUps pu.id pu }
  | Msg.powerUpCollect pid powerUpId effect =>
      { s with
        players := mapVal s.players pid
          (fun e => { e with activePowerUps := e.activePowerUps ++ [effect] }),
        powerUps := delKey s.powerUps powerUpId }
  | Msg.other => s

/-- The test `player.health <= 0` of the collision loop.  On an entry
with a missing `health` field the JavaScript comparison `undefined <= 0`
is false (`NaN` comparison), hence the `false` branch for `none`. -/
def lowHealth (p : Entry) : Bool :=
  match p.health with
  | some h => decide (h ≤ 0)
  | none => false

/-- The skip test of the collision loop:
`player.id === currentPlayerId || player.health <= 0`. -/
def skipsPlayer (me : String) (p : Entry) : Prop :=
  p.id = me ∨ lowHealth p = true

instance (me : String) (p : Entry) : Decidable (skipsPlayer me p) :=
  inferInstanceAs (Decidable (p.id = me ∨ lowHealth p = true))

/-- The inner point loop of `checkStrokeCollisions`: for each stroke
point within the hit radius of the player, record the player id unless
it is already recorded. -/
def collectHits (points : List Vec3) (p : Entry) (hit : List String) : List String :=
  points.foldl
    (fun hit2 pt =>
      if dist2 pt p.position < 16 / 25 then
        (if p.id ∈ hit2 then hit2 else hit2 ++ [p.id])
      else hit2)
    hit

/-- The outer player loop of `checkStrokeCollisions`. -/
def collectAllHits (players : List (String × Entry)) (me : String)
    (points : List Vec3) (hit : List String) : List String :=
  players.foldl
    (fun hit e => if skipsPlayer me e.2 then hit else collectHits points e.2 hit)
    hit

/-- `checkStrokeCollisions` of `GameArena`: a stroke of fewer than two
points registers nothing; otherwise every non-skipped player whose
position is within the hit radius of some stroke point is recorded once. -/
def checkStrokeCollisions (players : List (String × Entry)) (me : String)
    (stroke : PenStroke) : List String :=
  if stroke.points.length < 2 then []
  else collectAllHits players me stroke.points []

/-- `stopDrawing` of `GameArena` (the local, optimistic half): compute
the struck set and the damage `min(points.length * 2, 25)`, publish a
`pen_stroke` message carrying stroke, struck set and damage, and when the
struck set is nonempty apply the same decrement locally. -/
def stopDrawing (s : GameState) (me : String) (stroke : PenStroke) :
    GameState × Msg :=
  let hitPlayers := checkStrokeCollisions s.players me stroke
  let damage := min (stroke.points.length * 2) 25
  let s' :=
    if hitPlayers.length > 0 then
      { s with players := decrAll s.players hitPlayers damage }
    else s
  (s', Msg.penStroke me stroke hitPlayers damage)

/-- `handlePowerUpCollect` of `GameArena` (the local collection path):
a reference to an absent instance returns immediately; otherwise the
collector (when tracked) gains a fresh ten-second 1.5x effect, the
instance is removed, and the corresponding `power_up_collect` message is
published. -/
def handlePowerUpCollect (s : GameState) (me : String) (powerUpId : String)
    (now : ℤ) : GameState × Option Msg :=
  match lookup s.powerUps powerUpId with
  | none => (s, none)
  | some pu =>
      let effect : ActivePowerUp :=
        { type := pu.type, endTime := now + 10000, multiplier := 3 / 2 }
      ({ s with
          players := mapVal s.players me
            (fun e => { e with activePowerUps := e.activePowerUps ++ [effect] }),
          powerUps := delKey s.powerUps powerUpId },
       some (Msg.powerUpCollect me powerUpId effect))

/-- The set of held directional keys (each combining the WASD key with
the corresponding arrow key). -/
structure Keys where
  up : Bool
  down : Bool
  left : Bool
  right : Bool
deriving DecidableEq

/-- `Math.max(-8, Math.min(8, v))`, the per-axis boundary constraint. -/
def clampAxis (v : ℚ) : ℚ := ratMax (-8) (ratMin 8 v)

/-- One movement tick over the held keys: candidate position
`current + (plus or minus 0.1 per held key)`, then the clamp on the `x`
and `z` axes; the boolean is the `moved` flag, set by every held key
regardless of whether the clamped position differs. -/
def moveTick (p : Vec3) (k : Keys) : Vec3 × Bool :=
  let step : ℚ := 1 / 10
  let z1 := if k.up then p.z - step else p.z
  let z2 := if k.down then z1 + step else z1
  let x1 := if k.left then p.x - step else p.x
  let x2 := if k.right then x1 + step else x1
  let moved := k.up || k.down || k.left || k.right
  ({ x := clampAxis x2, y := p.y, z := clampAxis z2 }, moved)

/-- The movement effect of `GameArena`: it returns early when the local
player is untracked; otherwise, when the `moved` flag is set, the local
position is updated optimistically and a `player_move` message carrying
the clamped position and current rotation is published. -/
def applyLocalMove (s : GameState) (me : String) (k : Keys) :
    GameState × Option Msg :=
  match lookup s.players me with
  | none => (s, none)
  | some e =>
      let r := moveTick e.position k
      if r.2 then
        ({ s with players := setKey s.players me { e with position := r.1 } },
         some (Msg.playerMove me r.1 e.rotation))
      else (s, none)

/-- The spawn timer callback: insert a freshly generated instance
(randomness is injected at the originating peer, so the instance is a
parameter here) and publish it as `power_up_spawn`. -/
def spawnPowerUp (s : GameState) (pu : PowerUpData) : GameState × Msg :=
  ({ s with powerUps := setKey s.powerUps pu.id pu }, Msg.powerUpSpawn pu)

/-- The one-second cleanup sweep: drop every instance whose age strictly
exceeds its duration (`now - timestamp > duration`) and drop every
player effect whose `endTime` is not in the future (`endTime > now`
is the keep test). -/
def cleanupTick (s : GameState) (now : ℤ) : GameState :=
  { s with
    powerUps := s.powerUps.filter (fun e => ¬ (now - e.2.timestamp > e.2.duration)),
    players := s.players.map (fun e =>
      (e.1, { e.2 with activePowerUps := e.2.activePowerUps.filter (fun a => a.endTime > now) })) }

/-- A presence snapshot entry: peer identity and metadata, plus the
randomized spawn position (randomness injected by the caller). -/
structure PresenceUser where
  userId : String
  displayName : String
  color : String
  spawnPos : Vec3
deriving DecidableEq

/-- The full `Player` record built for each present peer. -/
def freshEntry (u : PresenceUser) : Entry :=
  { id := u.userId, name := u.displayName, position := u.spawnPos,
    rotation := { x := 0, y := 0, z := 0 }, health := some 100,
    maxHealth := some 100, color := u.color, isDrawing := false,
    penStrokes := [], activePowerUps := [], score := 0, kills := 0, deaths := 0 }

/-- The `onPresence` handler: the players mapping is rebuilt wholesale
from the presence snapshot, every peer getting a fresh full record. -/
def presenceRefresh (s : GameState) (users : List PresenceUser) : GameState :=
  { s with players := users.map (fun u => (u.userId, freshEntry u)) }

/-- One step of the event loop of a single peer: an inbound message
folded by the reducer, or one of the local timer and input callbacks. -/
inductive Step : GameState → GameState → Prop
  | msg (s : GameState) (m : Msg) : Step s (applyMsg m s)
  | localStroke (s : GameState) (me : String) (stroke : PenStroke) :
      Step s (stopDrawing s me stroke).1
  | localCollect (s : GameState) (me powerUpId : String) (now : ℤ) :
      Step s (handlePowerUpCollect s me powerUpId now).1
  | localMove (s : GameState) (me : String) (k : Keys) :
      Step s (applyLocalMove s me k).1
  | spawn (s : GameState) (pu : PowerUpData) :
      Step s (spawnPowerUp s pu).1
  | cleanup (s : GameState) (now : ℤ) :
      Step s (cleanupTick s now)
  | presence (s : GameState) (users : List PresenceUser) :
      Step s (presenceRefresh s users)

/-- Reachability from the initial arena state of a room. -/
def Reachable (roomId : String) (s : GameState) : Prop :=
  Relation.ReflTransGen Step (initState roomId) s

/-- The clamping invariant on a single entry: whenever the `health`
field is initialized it lies in `[0, 100]` and `maxHealth` is the
constant 100 every initialization path writes. -/
def healthClamped (e : Entry) : Prop :=
  ∀ h, e.health = some h → e.maxHealth = some 100 ∧ 0 ≤ h ∧ h ≤ 100

/-- The original spec reading of the invariant on a single entry: the
health and maxHealth fields are present and `0 <= health <= maxHealth`. -/
def healthInRange (e : Entry) : Prop :=
  match e.health, e.maxHealth with
  | some h, some mh => 0 ≤ h ∧ h ≤ mh
  | _, _ => False

/-- All entries of a players mapping satisfy the clamping invariant. -/
def EntriesOK (m : List (String × Entry)) : Prop :=
  ∀ p ∈ m, healthClamped p.2

theorem healthClamped_of_fields {e e' : Entry}
    (hh : e'.health = e.health) (hm : e'.maxHealth = e.maxHealth)
    (hc : healthClamped e) : healthClamped e' := by
  intro h hsome
  rw [hh] at hsome
  rw [hm]
  exact hc h hsome

theorem healthClamped_decrEntry (d : ℕ) {e : Entry} (hc : healthClamped e) :
    healthClamped (decrEntry d e) := by
  intro h hsome
  unfold decrEntry healthSub at hsome
  simp only at hsome
  cases he : e.health with
  | none => rw [he] at hsome; exact absurd hsome (by simp)
  | some h0 =>
      rw [he] at hsome
      simp only [Option.map_some'] at hsome
      have heq : jsMax 0 (h0 - (d : ℤ)) = h := Option.some.inj hsome
      rw [jsMax_eq_max] at heq
      obtain ⟨hmax, h0nn, h0le⟩ := hc h0 he
      have hmax' : (decrEntry d e).maxHealth = some 100 := hmax
      exact ⟨hmax', by omega, by omega⟩

theorem healthClamped_ghost (pid : String) (pos rot : Vec3) :
    healthClamped (ghostEntry pid pos rot) := by
  intro h hsome
  exact absurd hsome (by simp [ghostEntry])

theorem healthClamped_fresh (u : PresenceUser) : healthClamped (freshEntry u) := by
  intro h hsome
  simp only [freshEntry, Option.some.injEq] at hsome
  subst hsome
  exact ⟨rfl, by norm_num, by norm_num⟩

theorem lookup_mem (m : List (String × α)) (k : String) (v : α)
    (h : lookup m k = some v) : ∃ k', (k', v) ∈ m := by
  unfold lookup at h
  cases hf : m.find? (fun e => e.1 = k) with
  | none => rw [hf] at h; exact absurd h (by simp)
  | some pr =>
      rw [hf] at h
      simp only [Option.map_some', Option.some.injEq] at h
      exact ⟨pr.1, by rw [← h]; exact List.mem_of_find?_eq_some hf⟩

theorem EntriesOK_mapVal {m : List (String × Entry)} (k : String)
    {f : Entry → Entry} (hm : EntriesOK m)
    (hf : ∀ e, healthClamped e → healthClamped (f e)) :
    EntriesOK (mapVal m k f) := by
  intro p hp
  unfold mapVal at hp
  obtain ⟨q, hq, hpq⟩ := List.mem_map.mp hp
  by_cases hk : q.1 = k
  · rw [if_pos hk] at hpq
    rw [← hpq]
    exact hf q.2 (hm q hq)
  · rw [if_neg hk] at hpq
    rw [← hpq]
    exact hm q hq

theorem EntriesOK_setKey {m : List (String × Entry)} (k : String)
    {v : Entry} (hm : EntriesOK m) (hv : healthClamped v) :
    EntriesOK (setKey m k v) := by
  unfold setKey
  by_cases hs : (lookup m k).isSome
  · rw [if_pos hs]
    exact EntriesOK_mapVal k hm (fun _ _ => hv)
  · rw [if_neg hs]
    intro p hp
    rcases List.mem_append.mp hp with h | h
    · exact hm p h
    · simp only [List.mem_singleton] at h
      rw [h]
      exact hv

theorem EntriesOK_decrAll {m : List (String × Entry)} (l : List String)
    (d : ℕ) (hm : EntriesOK m) : EntriesOK (decrAll m l d) := by
  induction l generalizing m with
  | nil => exact hm
  | cons a l ih =>
      exact ih (EntriesOK_mapVal a hm (fun e he => healthClamped_decrEntry d he))

theorem lookup_decrAll_not_mem (m : List (String × Entry)) (l : List String)
    (d : ℕ) (pid : String) (h : pid ∉ l) :
    lookup (decrAll m l d) pid = lookup m pid := by
  induction l generalizing m with
  | nil => rfl
  | cons a l ih =>
      have hne : pid ≠ a := fun he => h (he ▸ List.mem_cons_self a l)
      have htl : pid ∉ l := fun ht => h (List.mem_cons_of_mem a ht)
      unfold decrAll
      simp only [List.foldl_cons]
      rw [show (List.foldl (fun acc pid => mapVal acc pid (decrEntry d)) (mapVal m a (decrEntry d)) l) = decrAll (mapVal m a (decrEntry d)) l d from rfl]
      rw [ih _ htl, lookup_mapVal_other _ _ _ _ hne]

theorem lookup_decrAll_mem (m : List (String × Entry)) (l : List String)
    (d : ℕ) (pid : String) (hnd : l.Nodup) (h : pid ∈ l) :
    lookup (decrAll m l d) pid = (lookup m pid).map (decrEntry d) := by
  induction l generalizing m with
  | nil => exact absurd h (List.not_mem_nil pid)
  | cons a l ih =>
      have hna : a ∉ l := (List.nodup_cons.mp hnd).1
      have hndl : l.Nodup := (List.nodup_cons.mp hnd).2
      unfold decrAll
      simp only [List.foldl_cons]
      rw [show (List.foldl (fun acc pid => mapVal acc pid (decrEntry d)) (mapVal m a (decrEntry d)) l) = decrAll (mapVal m a (decrEntry d)) l d from rfl]
      rcases List.mem_cons.mp h with he | hmem
      · subst he
        rw [lookup_decrAll_not_mem _ _ _ _ hna, lookup_mapVal_self]
      · have hne : pid ≠ a := fun he => hna (he ▸ hmem)
        rw [ih _ hndl hmem, lookup_mapVal_other _ _ _ _ hne]

theorem EntriesOK_penStrokeUpdate {m : List (String × Entry)} (a : String)
    (st : PenStroke) (l : List String) (d : ℕ) (h : EntriesOK m) :
    EntriesOK (penStrokeUpdate m a st l d) := by
  have h1 : EntriesOK (mapVal m a (fun e => { e with penStrokes := e.penStrokes ++ [st] })) :=
    EntriesOK_mapVal a h (fun e he => healthClamped_of_fields rfl rfl he)
  simp only [penStrokeUpdate]
  by_cases hd : d = 0
  · rw [if_pos hd]; exact h1
  · rw [if_neg hd]; exact EntriesOK_decrAll l d h1

/-- Every event-loop step preserves the clamping invariant on all
player entries. -/
theorem EntriesOK_step {s s' : GameState} (hs : Step s s')
    (h : EntriesOK s.players) : EntriesOK s'.players := by
  cases hs with
  | msg m =>
      cases m with
      | playerMove pid pos rot =>
          show EntriesOK (applyMove s.players pid pos rot)
          unfold applyMove
          cases hl : lookup s.players pid with
          | none => exact EntriesOK_setKey pid h (healthClamped_ghost pid pos rot)
          | some e =>
              obtain ⟨k', hk'⟩ := lookup_mem _ _ _ hl
              exact EntriesOK_setKey pid h
                (healthClamped_of_fields rfl rfl (h (k', e) hk'))
      | penStroke author stroke l d =>
          exact EntriesOK_penStrokeUpdate author stroke l d h
      | playerAttack pid targetId d =>
          exact EntriesOK_mapVal targetId h (fun e he => healthClamped_decrEntry d he)
      | powerUpSpawn pu => exact h
      | powerUpCollect pid puId effect =>
          show EntriesOK (mapVal s.players pid
            (fun e => { e with activePowerUps := e.activePowerUps ++ [effect] }))
          exact EntriesOK_mapVal pid h (fun e he => healthClamped_of_fields rfl rfl he)
      | other => exact h
  | localStroke me stroke =>
      show EntriesOK (stopDrawing s me stroke).1.players
      unfold stopDrawing
      by_cases hl : (checkStrokeCollisions s.players me stroke).length > 0
      · simp only [hl, if_true]
        exact EntriesOK_decrAll _ _ h
      · simp only [hl, if_false]
        exact h
  | localCollect me puId now =>
      show EntriesOK (handlePowerUpCollect s me puId now).1.players
      unfold handlePowerUpCollect
      cases hl : lookup s.powerUps puId with
      | none => exact h
      | some pu =>
          show EntriesOK (mapVal s.players me
            (fun e => { e with activePowerUps := e.activePowerUps ++
              [{ type := pu.type, endTime := now + 10000, multiplier := 3 / 2 }] }))
          exact EntriesOK_mapVal me h (fun e he => healthClamped_of_fields rfl rfl he)
  | localMove me k =>
      show EntriesOK (applyLocalMove s me k).1.players
      unfold applyLocalMove
      cases hl : lookup s.players me with
      | none => exact h
      | some e =>
          by_cases hm : (moveTick e.position k).2
          · simp only [hm, if_true]
            obtain ⟨k', hk'⟩ := lookup_mem _ _ _ hl
            exact EntriesOK_setKey me h
              (healthClamped_of_fields rfl rfl (h (k', e) hk'))
          · simp only [hm, if_false]
            exact h
  | spawn pu => exact h
  | cleanup now =>
      intro p hp
      obtain ⟨q, hq, hpq⟩ := List.mem_map.mp hp
      rw [← hpq]
      exact healthClamped_of_fields rfl rfl (h q hq)
  | presence users =>
      intro p hp
      obtain ⟨u, hu, hpu⟩ := List.mem_map.mp hp
      rw [← hpu]
      exact healthClamped_fresh u

/-- Every reachable state satisfies the clamping invariant on all
player entries. -/
theorem reachable_EntriesOK (roomId : String) (s : GameState)
    (h : Reachable roomId s) : EntriesOK s.players := by
  induction h with
  | refl => intro p hp; exact absurd hp (List.not_mem_nil p)
  | tail _ hstep ih => exact EntriesOK_step hstep ih

/-- Closed form of the inner point loop: the player id is appended once
when it is not yet recorded and some stroke point is within the hit
radius, and nothing happens otherwise. -/
theorem collectHits_eq (points : List Vec3) (p : Entry) (hit : List String) :
    collectHits points p hit =
      if p.id ∉ hit ∧ ∃ pt ∈ points, dist2 pt p.position < 16 / 25
      then hit ++ [p.id] else hit := by
  induction points generalizing hit with
  | nil => simp [collectHits]
  | cons pt pts ih =>
      have hstep : collectHits (pt :: pts) p hit =
          collectHits pts p
            (if dist2 pt p.position < 16 / 25 then
              (if p.id ∈ hit then hit else hit ++ [p.id]) else hit) := rfl
      rw [hstep]
      by_cases hc : dist2 pt p.position < 16 / 25
      · rw [if_pos hc]
        by_cases hm : p.id ∈ hit
        · rw [if_pos hm, ih]
          rw [if_neg (by simp [hm]), if_neg (by simp [hm])]
        · rw [if_neg hm, ih]
          rw [if_neg (by simp), if_pos (by exact ⟨hm, ⟨pt, List.mem_cons_self pt pts, hc⟩⟩)]
      · rw [if_neg hc, ih]
        have hiff : (p.id ∉ hit ∧ ∃ pt' ∈ pts, dist2 pt' p.position < 16 / 25) ↔
            (p.id ∉ hit ∧ ∃ pt' ∈ pt :: pts, dist2 pt' p.position < 16 / 25) := by
          constructor
          · rintro ⟨h1, pt', hpt', h2⟩
            exact ⟨h1, pt', List.mem_cons_of_mem pt hpt', h2⟩
          · rintro ⟨h1, pt', hpt', h2⟩
            rcases List.mem_cons.mp hpt' with he | he
            · exact absurd (he ▸ h2) hc
            · exact ⟨h1, pt', he, h2⟩
        rw [if_congr hiff rfl rfl]

theorem nodup_collectHits (points : List Vec3) (p : Entry) (hit : List String)
    (h : hit.Nodup) : (collectHits points p hit).Nodup := by
  rw [collectHits_eq]
  by_cases hcond : p.id ∉ hit ∧ ∃ pt ∈ points, dist2 pt p.position < 16 / 25
  · rw [if_pos hcond]
    simp [List.nodup_append, h, hcond.1]
  · rw [if_neg hcond]
    exact h

/-- A player qualifies for the struck set when the skip test fails and
some stroke point lies within the hit radius. -/
def qualifies (me : String) (points : List Vec3) (p : Entry) : Prop :=
  ¬ skipsPlayer me p ∧ ∃ pt ∈ points, dist2 pt p.position < 16 / 25

theorem mem_collectAllHits (players : List (String × Entry)) (me : String)
    (points : List Vec3) (hit : List String) (pid : String) :
    pid ∈ collectAllHits players me points hit ↔
      pid ∈ hit ∨ ∃ pr ∈ players, pr.2.id = pid ∧ qualifies me points pr.2 := by
  induction players generalizing hit with
  | nil => simp [collectAllHits]
  | cons e ps ih =>
      have hstep : collectAllHits (e :: ps) me points hit =
          collectAllHits ps me points
            (if skipsPlayer me e.2 then hit else collectHits points e.2 hit) := rfl
      rw [hstep, ih]
      have hkey : pid ∈ (if skipsPlayer me e.2 then hit else collectHits points e.2 hit) ↔
          pid ∈ hit ∨ (e.2.id = pid ∧ qualifies me points e.2) := by
        by_cases hs : skipsPlayer me e.2
        · rw [if_pos hs]
          unfold qualifies
          constructor
          · exact fun h => Or.inl h
          · rintro (h | ⟨_, hq, _⟩)
            · exact h
            · exact absurd hs hq
        · rw [if_neg hs, collectHits_eq]
          by_cases hcond : e.2.id ∉ hit ∧ ∃ pt ∈ points, dist2 pt e.2.position < 16 / 25
          · rw [if_pos hcond]
            unfold qualifies
            simp only [List.mem_append, List.mem_singleton]
            constructor
            · rintro (h | h)
              · exact Or.inl h
              · exact Or.inr ⟨h.symm, hs, hcond.2⟩
            · rintro (h | ⟨he, _⟩)
              · exact Or.inl h
              · exact Or.inr he.symm
          · rw [if_neg hcond]
            unfold qualifies
            constructor
            · exact fun h => Or.inl h
            · rintro (h | ⟨he, _, hclose⟩)
              · exact h
              · rcases not_and_or.mp hcond with hmem | hnc
                · rw [not_not] at hmem
                  exact he ▸ hmem
                · exact absurd hclose hnc
      rw [hkey]
      constructor
      · rintro ((h | h) | ⟨pr, hpr, hq⟩)
        · exact Or.inl h
        · exact Or.inr ⟨e, List.mem_cons_self e ps, h.1, h.2⟩
        · exact Or.inr ⟨pr, List.mem_cons_of_mem e hpr, hq⟩
      · rintro (h | ⟨pr, hpr, hq⟩)
        · exact Or.inl (Or.inl h)
        · rcases List.mem_cons.mp hpr with he | hm
          · exact Or.inl (Or.inr (he ▸ hq))
          · exact Or.inr ⟨pr, hm, hq⟩

theorem nodup_collectAllHits (players : List (String × Entry)) (me : String)
    (points : List Vec3) (hit : List String) (h : hit.Nodup) :
    (collectAllHits players me points hit).Nodup := by
  induction players generalizing hit with
  | nil => exact h
  | cons e ps ih =>
      have hstep : collectAllHits (e :: ps) me points hit =
          collectAllHits ps me points
            (if skipsPlayer me e.2 then hit else collectHits points e.2 hit) := rfl
      rw [hstep]
      by_cases hs : skipsPlayer me e.2
      · rw [if_pos hs]; exact ih hit h
      · rw [if_neg hs]; exact ih _ (nodup_collectHits points e.2 hit h)

/-- The struck set never records an id twice. -/
theorem checkStrokeCollisions_nodup (players : List (String × Entry))
    (me : String) (stroke : PenStroke) :
    (checkStrokeCollisions players me stroke).Nodup := by
  unfold checkStrokeCollisions
  by_cases hl : stroke.points.length < 2
  · rw [if_pos hl]; exact List.nodup_nil
  · rw [if_neg hl]; exact nodup_collectAllHits players me stroke.points [] List.nodup_nil

/-- A stroke of fewer than two points registers no hit. -/
theorem checkStrokeCollisions_short (players : List (String × Entry))
    (me : String) (stroke : PenStroke) (h : stroke.points.length < 2) :
    checkStrokeCollisions players me stroke = [] := by
  unfold checkStrokeCollisions
  rw [if_pos h]

/-- Membership in the struck set of a stroke of at least two points. -/
theorem mem_checkStrokeCollisions (players : List (String × Entry))
    (me : String) (stroke : PenStroke) (h2 : 2 ≤ stroke.points.length)
    (pid : String) :
    pid ∈ checkStrokeCollisions players me stroke ↔
      ∃ pr ∈ players, pr.2.id = pid ∧ qualifies me stroke.points pr.2 := by
  unfold checkStrokeCollisions
  rw [if_neg (by omega), mem_collectAllHits]
  simp

/-- When every listed id is absent from the mapping, the damage loop is
the identity. -/
theorem decrAll_eq_of_absent (m : List (String × Entry)) (l : List String)
    (d : ℕ) (h : ∀ pid ∈ l, lookup m pid = none) : decrAll m l d = m := by
  induction l generalizing m with
  | nil => rfl
  | cons a t ih =>
      have ha : lookup m a = none := h a (List.mem_cons_self a t)
      have hma : mapVal m a (decrEntry d) = m :=
        mapVal_eq_of_notMem m a _ ((lookup_eq_none_iff m a).mp ha)
      unfold decrAll
      simp only [List.foldl_cons]
      rw [show (List.foldl (fun acc pid => mapVal acc pid (decrEntry d))
            (mapVal m a (decrEntry d)) t) = decrAll (mapVal m a (decrEntry d)) t d from rfl]
      rw [hma]
      exact ih m (fun pid hp => h pid (List.mem_cons_of_mem a hp))

/-- When the author and every listed id are absent, the pen-stroke
reducer case is the identity on the players mapping. -/
theorem penStrokeUpdate_absent (m : List (String × Entry)) (a : String)
    (st : PenStroke) (l : List String) (d : ℕ)
    (ha : lookup m a = none) (hl : ∀ pid ∈ l, lookup m pid = none) :
    penStrokeUpdate m a st l d = m := by
  have hm1 : mapVal m a (fun e => { e with penStrokes := e.penStrokes ++ [st] }) = m :=
    mapVal_eq_of_notMem m a _ ((lookup_eq_none_iff m a).mp ha)
  simp only [penStrokeUpdate]
  rw [hm1]
  by_cases hd : d = 0
  · rw [if_pos hd]
  · rw [if_neg hd]
    exact decrAll_eq_of_absent m l d hl

/-! Concrete fixtures used by witnesses and counterexamples. -/

def v0 : Vec3 := { x := 0, y := 0, z := 0 }

def testUserA : PresenceUser :=
  { userId := "a", displayName := "Alice", color := "#ff0000", spawnPos := v0 }

def entryA : Entry :=
  { id := "a", name := "A", position := v0, rotation := v0,
    health := some 100, maxHealth := some 100, color := "#f00",
    isDrawing := false, penStrokes := [], activePowerUps := [],
    score := 0, kills := 0, deaths := 0 }

def posB : Vec3 := { x := 1 / 2, y := 0, z := 0 }

def posC : Vec3 := { x := 6, y := 0, z := 0 }

def entryB : Entry := { entryA with id := "b", name := "B", position := posB }

def entryC : Entry := { entryA with id := "c", name := "C", position := posC }

/-- Attacker at the origin, one opponent well inside the 0.8 hit radius,
one far outside it. -/
def duelState : GameState :=
  { players := [("a", entryA), ("b", entryB), ("c", entryC)],
    powerUps := [], gameStatus := GameStatus.playing, roomId := "r" }

/-- A five-point stroke drawn at the origin. -/
def stroke5 : PenStroke :=
  { id := "s1", points := [v0, v0, v0, v0, v0], color := "#f00",
    thickness := 1 / 20, timestamp := 0 }

def speedPU : PowerUpData :=
  { id := "pu1", type := PowerUpType.speed, position := v0,
    timestamp := 0, duration := 30000 }

def spawnedState : GameState := (spawnPowerUp (initState "r") speedPU).1

def ghostMoveState : GameState :=
  applyMsg (Msg.playerMove "p1" v0 v0) (initState "r")

/-! Claim theorems. -/

/-- C1 (amended): in every reachable state of the reducer, every
players-mapping entry whose health field is initialized satisfies
`0 <= health` and `health <= maxHealth` with `maxHealth = 100`; the
bound can fail only on the partial entries fabricated by a
`player_move` for an untracked id, whose health field is missing. -/
theorem c1_health_clamped (roomId : String) (s : GameState)
    (hr : Reachable roomId s) (k : String) (e : Entry) (h : ℤ)
    (hk : (k, e) ∈ s.players) (hh : e.health = some h) :
    0 ≤ h ∧ e.maxHealth = some 100 ∧ h ≤ 100 := by
  obtain ⟨hm, h0, h1⟩ := reachable_EntriesOK roomId s hr (k, e) hk h hh
  exact ⟨h0, hm, h1⟩

/-- C1 witness: the theorem applied to the state reached by one presence
refresh, at the freshly created player. -/
theorem c1_health_clamped_witness :
    0 ≤ (100 : ℤ) ∧ (freshEntry testUserA).maxHealth = some 100 ∧ (100 : ℤ) ≤ 100 :=
  c1_health_clamped "r" (presenceRefresh (initState "r") [testUserA])
    (Relation.ReflTransGen.single (Step.presence _ _)) "a" (freshEntry testUserA) 100
    (by decide) rfl

/-- C1 counterexample: the claim as stated fails.  A single inbound
`player_move` for an untracked id is a reachable step, and it leaves the
players mapping holding an entry with no health field at all, for which
`0 <= health <= maxHealth` does not hold. -/
theorem c1_counterexample :
    Reachable "r" ghostMoveState ∧
    ("p1", ghostEntry "p1" v0 v0) ∈ ghostMoveState.players ∧
    ¬ healthInRange (ghostEntry "p1" v0 v0) :=
  ⟨Relation.ReflTransGen.single (Step.msg _ _), by decide, fun hf => hf⟩

/-- C6 (amended): inbound messages referencing absent identities raise
no error and the guarded accesses degrade to no-ops: a `pen_stroke`
whose author and listed hit ids are all untracked leaves the state
unchanged; a `player_attack` on an untracked target leaves the state
unchanged; a `power_up_collect` naming an absent power-up leaves the
power-ups mapping unchanged, and when its player is also untracked it
leaves the whole state unchanged.  A `player_move` for an untracked
player, however, is not a no-op: it inserts a fabricated partial entry
under that id. -/
theorem c6_absent_reference_behavior :
    (∀ (s : GameState) (a : String) (st : PenStroke) (l : List String) (d : ℕ),
        lookup s.players a = none → (∀ pid ∈ l, lookup s.players pid = none) →
        applyMsg (Msg.penStroke a st l d) s = s) ∧
    (∀ (s : GameState) (pid tid : String) (d : ℕ),
        lookup s.players tid = none →
        applyMsg (Msg.playerAttack pid tid d) s = s) ∧
    (∀ (s : GameState) (pid puId : String) (eff : ActivePowerUp),
        lookup s.powerUps puId = none →
        (applyMsg (Msg.powerUpCollect pid puId eff) s).powerUps = s.powerUps) ∧
    (∀ (s : GameState) (pid puId : String) (eff : ActivePowerUp),
        lookup s.powerUps puId = none → lookup s.players pid = none →
        applyMsg (Msg.powerUpCollect pid puId eff) s = s) ∧
    (∀ (s : GameState) (pid : String) (pos rot : Vec3),
        lookup s.players pid = none →
        lookup (applyMsg (Msg.playerMove pid pos rot) s).players pid =
          some (ghostEntry pid pos rot)) := by
  refine ⟨?_, ?_, ?_, ?_, ?_⟩
  · intro s a st l d ha hl
    show { s with players := penStrokeUpdate s.players a st l d } = s
    rw [penStrokeUpdate_absent s.players a st l d ha hl]
  · intro s pid tid d h
    show { s with players := mapVal s.players tid (decrEntry d) } = s
    rw [mapVal_eq_of_notMem s.players tid _ ((lookup_eq_none_iff s.players tid).mp h)]
  · intro s pid puId eff h
    show delKey s.powerUps puId = s.powerUps
    exact delKey_eq_of_notMem s.powerUps puId ((lookup_eq_none_iff s.powerUps puId).mp h)
  · intro s pid puId eff hpu hp
    show { s with
        players := mapVal s.players pid
          (fun e => { e with activePowerUps := e.activePowerUps ++ [eff] }),
        powerUps := delKey s.powerUps puId } = s
    rw [mapVal_eq_of_notMem s.players pid _ ((lookup_eq_none_iff s.players pid).mp hp),
      delKey_eq_of_notMem s.powerUps puId ((lookup_eq_none_iff s.powerUps puId).mp hpu)]
  · intro s pid pos rot h
    show lookup (applyMove s.players pid pos rot) pid = some (ghostEntry pid pos rot)
    unfold applyMove
    rw [h]
    exact lookup_setKey_self s.players pid (ghostEntry pid pos rot)

def testEffect : ActivePowerUp :=
  { type := PowerUpType.speed, endTime := 50000, multiplier := 2 }

/-- C6 witness: the no-op conjuncts of the amended theorem discharged at
the empty initial state, plus the ghost insertion of the move case. -/
theorem c6_absent_reference_behavior_witness :
    applyMsg (Msg.penStroke "a" stroke5 ["b"] 4) (initState "r") = initState "r" ∧
    applyMsg (Msg.playerAttack "a" "b" 5) (initState "r") = initState "r" ∧
    (applyMsg (Msg.powerUpCollect "a" "pu9" testEffect) (initState "r")).powerUps =
      (initState "r").powerUps ∧
    applyMsg (Msg.powerUpCollect "a" "pu9" testEffect) (initState "r") = initState "r" ∧
    lookup (applyMsg (Msg.playerMove "p1" v0 v0) (initState "r")).players "p1" =
      some (ghostEntry "p1" v0 v0) :=
  ⟨c6_absent_reference_behavior.1 (initState "r") "a" stroke5 ["b"] 4 rfl
      (fun _ _ => rfl),
    c6_absent_reference_behavior.2.1 (initState "r") "a" "b" 5 rfl,
    c6_absent_reference_behavior.2.2.1 (initState "r") "a" "pu9" testEffect rfl,
    c6_absent_reference_behavior.2.2.2.1 (initState "r") "a" "pu9" testEffect rfl rfl,
    c6_absent_reference_behavior.2.2.2.2 (initState "r") "p1" v0 v0 rfl⟩

/-- C6 counterexample: the claim as stated fails.  A `player_move`
message for an id not present in the state does not leave the state
unchanged: it inserts a new (partial) entry under that id. -/
theorem c6_counterexample :
    lookup (initState "r").players "p1" = none ∧
    applyMsg (Msg.playerMove "p1" v0 v0) (initState "r") ≠ initState "r" :=
  ⟨rfl, by decide⟩

def borderEntry : Entry :=
  { id := "m", name := "M", position := { x := -8, y := 0, z := 0 },
    rotation := v0, health := some 100, maxHealth := some 100,
    color := "#0f0", isDrawing := false, penStrokes := [],
    activePowerUps := [], score := 0, kills := 0, deaths := 0 }

def borderState : GameState :=
  { players := [("m", borderEntry)], powerUps := [],
    gameStatus := GameStatus.playing, roomId := "r" }

def leftKeys : Keys := { up := false, down := false, left := true, right := false }

/-- C7 (amended): a movement tick publishes a `player_move` message
exactly when the local player is tracked and at least one directional
key is held; the `moved` flag is driven by the keys alone, not by
whether the clamped position actually changed. -/
theorem c7_message_iff_key_held (s : GameState) (me : String) (k : Keys) :
    ((applyLocalMove s me k).2).isSome =
      ((lookup s.players me).isSome && (k.up || k.down || k.left || k.right)) := by
  unfold applyLocalMove
  cases hl : lookup s.players me with
  | none => rfl
  | some e =>
      have hmv : (k.up || k.down || k.left || k.right) = (moveTick e.position k).2 := rfl
      rw [Option.isSome_some, Bool.true_and, hmv]
      cases hb : (moveTick e.position k).2
      · simp only [hb, Bool.false_eq_true, if_false]
        rfl
      · simp only [hb, if_true]
        rfl

/-- C7 counterexample: the claim as stated fails.  With the player
standing at the left boundary and the left key held, no axis of the
clamped position changes (the resulting state equals the old one), yet
a `player_move` message is still published. -/
theorem c7_counterexample :
    applyLocalMove borderState "m" leftKeys =
      (borderState, some (Msg.playerMove "m" borderEntry.position borderEntry.rotation)) := by
  have hlk : lookup borderState.players "m" = some borderEntry := rfl
  have hmt : moveTick borderEntry.position leftKeys =
      ({ x := -8, y := 0, z := 0 }, true) := by
    norm_num [moveTick, leftKeys, borderEntry, clampAxis, ratMin, ratMax]
  unfold applyLocalMove
  rw [hlk]
  simp only [hmt]
  rfl

/-- Iterated move-left ticks. -/
def leftIter (p : Vec3) : ℕ → Vec3
  | 0 => p
  | n + 1 => (moveTick (leftIter p n) leftKeys).1

/-- C8: starting from `x = -7.95`, any number of repeated move-left
ticks (step 0.1, clamp to the interval from -8 to 8 on each axis) never
produces a position with `x < -8`. -/
theorem c8_left_clamp (y z : ℚ) (n : ℕ) :
    -8 ≤ (leftIter { x := -159 / 20, y := y, z := z } n).x := by
  cases n with
  | zero =>
      show (-8 : ℚ) ≤ -159 / 20
      norm_num
  | succ n =>
      show (-8 : ℚ) ≤ clampAxis _
      exact le_ratMax_left _ _

/-- C9 (amended): the cleanup sweep at time `now` keeps exactly the
instances with `now - timestamp <= duration`; an instance is therefore
removed by the first sweep occurring strictly after `timestamp +
duration`, not at the expiry instant itself. -/
theorem c9_cleanup_removes_expired (s : GameState) (now : ℤ)
    (pr : String × PowerUpData) (h : pr ∈ (cleanupTick s now).powerUps) :
    now - pr.2.timestamp ≤ pr.2.duration := by
  unfold cleanupTick at h
  simp only at h
  have hf := List.of_mem_filter h
  simpa using hf

/-- C9 witness: the theorem applied to an unexpired instance surviving a
sweep. -/
theorem c9_cleanup_removes_expired_witness :
    (100 : ℤ) - speedPU.timestamp ≤ speedPU.duration :=
  c9_cleanup_removes_expired spawnedState 100 ("pu1", speedPU) (by decide)

/-- C9 counterexample: the claim as stated fails.  An instance spawned
at time 0 with duration 30000 is still present at query time 30000
(equal to `t + D`), even after a cleanup sweep at exactly that time,
because the removal test `now - timestamp > duration` is strict. -/
theorem c9_counterexample :
    Reachable "r" spawnedState ∧
    lookup (cleanupTick spawnedState 30000).powerUps "pu1" = some speedPU :=
  ⟨Relation.ReflTransGen.single (Step.spawn _ _), by decide⟩

/-- Concrete evaluation of the collision resolver on the duel fixture:
the attacker is skipped, the close opponent is struck once, the distant
opponent is not struck. -/
theorem duelHits_eval :
    checkStrokeCollisions duelState.players "a" stroke5 = ["b"] := by
  have hA : skipsPlayer "a" entryA := Or.inl rfl
  have hB : ¬ skipsPlayer "a" entryB := by decide
  have hC : ¬ skipsPlayer "a" entryC := by decide
  unfold checkStrokeCollisions
  rw [if_neg (by decide)]
  show collectAllHits [("a", entryA), ("b", entryB), ("c", entryC)] "a" stroke5.points [] = ["b"]
  have hB2 : collectHits stroke5.points entryB [] = ["b"] := by
    rw [collectHits_eq,
      if_pos ⟨List.not_mem_nil _,
        ⟨v0, by decide, by norm_num [dist2, v0, posB, entryB, entryA]⟩⟩]
    decide
  have hC2 : collectHits stroke5.points entryC ["b"] = ["b"] := by
    rw [collectHits_eq, if_neg ?_]
    rintro ⟨-, pt, hpt, hlt⟩
    have hv : pt = v0 := by
      simp only [stroke5, List.mem_cons, List.not_mem_nil, or_false] at hpt
      rcases hpt with h | h | h | h | h <;> exact h
    rw [hv] at hlt
    norm_num [dist2, v0, posC, entryC, entryA] at hlt
  unfold collectAllHits
  simp only [List.foldl_cons, List.foldl_nil]
  rw [if_pos hA, if_neg hB, if_neg hC, hB2, hC2]

/-- C2: a delivered `pen_stroke` message (as published by `stopDrawing`,
carrying the struck-player list and damage `min(2N, 25)`) makes every
listed player that is present with health `h` end with health exactly
`max(0, h - d)`, applied exactly once, while every unlisted player
keeps its health (the author only gains the stroke). -/
theorem c2_pen_stroke_exactly_once (s : GameState) (me : String)
    (stroke : PenStroke) (s2 : GameState) :
    (∀ pid e h, pid ∈ checkStrokeCollisions s.players me stroke →
        lookup s2.players pid = some e → e.health = some h →
        (lookup (applyMsg (stopDrawing s me stroke).2 s2).players pid).map Entry.health =
          some (some (max 0 (h - (min (stroke.points.length * 2) 25 : ℕ))))) ∧
    (∀ pid, pid ∉ checkStrokeCollisions s.players me stroke →
        (lookup (applyMsg (stopDrawing s me stroke).2 s2).players pid).map Entry.health =
          (lookup s2.players pid).map Entry.health) := by
  have hmap : ∀ pid,
      (lookup (mapVal s2.players me
        (fun e => { e with penStrokes := e.penStrokes ++ [stroke] })) pid).map Entry.health =
        (lookup s2.players pid).map Entry.health := by
    intro pid
    by_cases hpm : pid = me
    · subst hpm
      rw [lookup_mapVal_self]
      cases lookup s2.players pid <;> rfl
    · rw [lookup_mapVal_other _ _ _ _ hpm]
  constructor
  · intro pid e h hmem hle hh
    have h2 : 2 ≤ stroke.points.length := by
      by_contra hlt
      push_neg at hlt
      rw [checkStrokeCollisions_short s.players me stroke hlt] at hmem
      exact absurd hmem (List.not_mem_nil pid)
    have hd : ¬ (min (stroke.points.length * 2) 25 = 0) := by omega
    show (lookup (penStrokeUpdate s2.players me stroke
        (checkStrokeCollisions s.players me stroke)
        (min (stroke.points.length * 2) 25)) pid).map Entry.health = _
    simp only [penStrokeUpdate]
    rw [if_neg hd,
      lookup_decrAll_mem _ _ _ _ (checkStrokeCollisions_nodup s.players me stroke) hmem]
    by_cases hpm : pid = me
    · subst hpm
      rw [lookup_mapVal_self, hle]
      simp [decrEntry, healthSub, hh, jsMax_eq_max]
    · rw [lookup_mapVal_other _ _ _ _ hpm, hle]
      simp [decrEntry, healthSub, hh, jsMax_eq_max]
  · intro pid hnmem
    show (lookup (penStrokeUpdate s2.players me stroke
        (checkStrokeCollisions s.players me stroke)
        (min (stroke.points.length * 2) 25)) pid).map Entry.health = _
    simp only [penStrokeUpdate]
    by_cases hd : (min (stroke.points.length * 2) 25) = 0
    · rw [if_pos hd]
      exact hmap pid
    · rw [if_neg hd, lookup_decrAll_not_mem _ _ _ _ hnmem]
      exact hmap pid

/-- C2 witness: the theorem applied to the duel fixture; the struck
player drops from 100 to 90 health, the distant player keeps its
health. -/
theorem c2_pen_stroke_exactly_once_witness :
    "b" ∈ checkStrokeCollisions duelState.players "a" stroke5 ∧
    (lookup (applyMsg (stopDrawing duelState "a" stroke5).2 duelState).players "b").map
      Entry.health = some (some 90) ∧
    (lookup (applyMsg (stopDrawing duelState "a" stroke5).2 duelState).players "c").map
      Entry.health = (lookup duelState.players "c").map Entry.health := by
  have t := c2_pen_stroke_exactly_once duelState "a" stroke5 duelState
  have hb : "b" ∈ checkStrokeCollisions duelState.players "a" stroke5 := by
    rw [duelHits_eval]
    exact List.mem_singleton.mpr rfl
  have hc : "c" ∉ checkStrokeCollisions duelState.players "a" stroke5 := by
    rw [duelHits_eval]
    decide
  refine ⟨hb, ?_, t.2 "c" hc⟩
  have := t.1 "b" entryB 100 hb rfl rfl
  rw [this]
  norm_num [stroke5]

/-- C3: the struck set computed by the collision resolver is exactly the
set of players other than the attacker with positive health for whom
some stroke point lies within Euclidean distance 0.8 (squared distance
below 0.64) of the player position, each struck player recorded at most
once; a stroke of fewer than two points yields the empty struck set.
The player set ranges over data-model players (health field present). -/
theorem c3_collision_resolver (players : List (String × Entry)) (me : String)
    (stroke : PenStroke)
    (hwf : ∀ pr ∈ players, (pr.2.health).isSome = true) :
    (checkStrokeCollisions players me stroke).Nodup ∧
    (stroke.points.length < 2 → checkStrokeCollisions players me stroke = []) ∧
    (2 ≤ stroke.points.length → ∀ pid,
      (pid ∈ checkStrokeCollisions players me stroke ↔
        ∃ pr ∈ players, pr.2.id = pid ∧ pid ≠ me ∧
          (∃ h, pr.2.health = some h ∧ 0 < h) ∧
          ∃ pt ∈ stroke.points, dist2 pt pr.2.position < 16 / 25)) := by
  refine ⟨checkStrokeCollisions_nodup players me stroke,
    fun h => checkStrokeCollisions_short players me stroke h,
    fun h2 pid => ?_⟩
  rw [mem_checkStrokeCollisions players me stroke h2 pid]
  constructor
  · rintro ⟨pr, hpr, hid, hns, hclose⟩
    rcases Option.isSome_iff_exists.mp (hwf pr hpr) with ⟨h, hh⟩
    have hnid : ¬ pr.2.id = me := fun he => hns (Or.inl he)
    have hnlow : ¬ lowHealth pr.2 = true := fun hl => hns (Or.inr hl)
    have hpos : 0 < h := by
      by_contra hle
      push_neg at hle
      apply hnlow
      unfold lowHealth
      rw [hh]
      exact decide_eq_true hle
    exact ⟨pr, hpr, hid, fun he => hnid (hid.trans he), ⟨h, hh, hpos⟩, hclose⟩
  · rintro ⟨pr, hpr, hid, hne, ⟨h, hh, hpos⟩, hclose⟩
    refine ⟨pr, hpr, hid, ⟨?_, hclose⟩⟩
    rintro (he | hl)
    · exact hne (hid.symm.trans he)
    · unfold lowHealth at hl
      rw [hh] at hl
      have := of_decide_eq_true hl
      omega

/-- C3 witness: on the duel fixture the struck set has no duplicate and
contains the close opponent, via the geometric characterization. -/
theorem c3_collision_resolver_witness :
    (checkStrokeCollisions duelState.players "a" stroke5).Nodup ∧
    "b" ∈ checkStrokeCollisions duelState.players "a" stroke5 := by
  have t := c3_collision_resolver duelState.players "a" stroke5 (by decide)
  refine ⟨t.1, ?_⟩
  refine (t.2.2 (by decide) "b").mpr
    ⟨("b", entryB), List.mem_cons_of_mem _ (List.mem_cons_self _ _), rfl, by decide,
      ⟨100, rfl, by decide⟩, ⟨v0, by decide, ?_⟩⟩
  norm_num [dist2, v0, posB, entryB, entryA]

/-- C4: the attacker computes and broadcasts damage
`min(points.length * 2, 25)` and applies exactly that decrement locally
to every struck player, leaving every other player untouched; a
five-point stroke thus carries damage 10. -/
theorem c4_stroke_damage (s : GameState) (me : String) (stroke : PenStroke) :
    (stopDrawing s me stroke).2 =
      Msg.penStroke me stroke (checkStrokeCollisions s.players me stroke)
        (min (stroke.points.length * 2) 25) ∧
    (∀ pid e h, pid ∈ checkStrokeCollisions s.players me stroke →
        lookup s.players pid = some e → e.health = some h →
        (lookup (stopDrawing s me stroke).1.players pid).map Entry.health =
          some (some (max 0 (h - (min (stroke.points.length * 2) 25 : ℕ))))) ∧
    (∀ pid, pid ∉ checkStrokeCollisions s.players me stroke →
        (lookup (stopDrawing s me stroke).1.players pid).map Entry.health =
          (lookup s.players pid).map Entry.health) := by
  refine ⟨rfl, ?_, ?_⟩
  · intro pid e h hmem hle hh
    have hpos : (checkStrokeCollisions s.players me stroke).length > 0 :=
      List.length_pos.mpr (List.ne_nil_of_mem hmem)
    simp only [stopDrawing]
    rw [if_pos hpos,
      lookup_decrAll_mem _ _ _ _ (checkStrokeCollisions_nodup s.players me stroke) hmem,
      hle]
    simp [decrEntry, healthSub, hh, jsMax_eq_max]
  · intro pid hnmem
    simp only [stopDrawing]
    by_cases hl : (checkStrokeCollisions s.players me stroke).length > 0
    · rw [if_pos hl, lookup_decrAll_not_mem _ _ _ _ hnmem]
    · rw [if_neg hl]

/-- C4 witness: the five-point duel stroke publishes damage 10 and the
struck player ends at 90 health while the distant player keeps its
health. -/
theorem c4_stroke_damage_witness :
    (stopDrawing duelState "a" stroke5).2 =
      Msg.penStroke "a" stroke5 ["b"] 10 ∧
    (lookup (stopDrawing duelState "a" stroke5).1.players "b").map Entry.health =
      some (some 90) ∧
    (lookup (stopDrawing duelState "a" stroke5).1.players "c").map Entry.health =
      (lookup duelState.players "c").map Entry.health := by
  have t := c4_stroke_damage duelState "a" stroke5
  have hb : "b" ∈ checkStrokeCollisions duelState.players "a" stroke5 := by
    rw [duelHits_eval]
    exact List.mem_singleton.mpr rfl
  have hc : "c" ∉ checkStrokeCollisions duelState.players "a" stroke5 := by
    rw [duelHits_eval]
    decide
  refine ⟨?_, ?_, t.2.2 "c" hc⟩
  · rw [t.1, duelHits_eval]
    norm_num [stroke5]
  · have := t.2.1 "b" entryB 100 hb rfl rfl
    rw [this]
    norm_num [stroke5]

def entryD : Entry := { entryA with id := "d", name := "D" }

def collectState : GameState :=
  { players := [("d", entryD)], powerUps := [("pu1", speedPU)],
    gameStatus := GameStatus.playing, roomId := "r" }

def dupEffect : ActivePowerUp :=
  { type := PowerUpType.speed, endTime := 50000, multiplier := 2 }

def dupCollect : Msg := Msg.powerUpCollect "d" "pu1" dupEffect

/-- C5 counterexample: the claim as stated fails.  Delivering the same
`power_up_collect` message twice is not a no-op: the remote reducer
checks only that the player exists, not that the instance is still
present, so the second delivery attaches a second copy of the effect. -/
theorem c5_counterexample :
    applyMsg dupCollect (applyMsg dupCollect collectState) ≠
      applyMsg dupCollect collectState ∧
    (lookup (applyMsg dupCollect (applyMsg dupCollect collectState)).players "d").map
      (fun e => e.activePowerUps.length) = some 2 :=
  ⟨by decide, by decide⟩

/-- C5 (amended): local collection is exactly-once — once the instance
has been removed, a second local collect of the same id returns the
state unchanged and publishes nothing — but the remote
`power_up_collect` reducer case attaches the carried effect to the
(present) sending player unconditionally, so a duplicate message
attaches an additional effect; only the mapping removal itself is
idempotent. -/
theorem c5_collect_exactly_once_local (s : GameState) (me puId : String)
    (now : ℤ) (pid : String) (eff : ActivePowerUp) (e : Entry)
    (habsent : lookup s.powerUps puId = none)
    (hp : lookup s.players pid = some e) :
    handlePowerUpCollect s me puId now = (s, none) ∧
    lookup (applyMsg (Msg.powerUpCollect pid puId eff) s).players pid =
      some { e with activePowerUps := e.activePowerUps ++ [eff] } := by
  constructor
  · unfold handlePowerUpCollect
    rw [habsent]
  · show lookup (mapVal s.players pid
      (fun e => { e with activePowerUps := e.activePowerUps ++ [eff] })) pid = _
    rw [lookup_mapVal_self, hp]
    rfl

/-- C5 witness: the amended theorem applied to a state whose power-up
was already removed. -/
theorem c5_collect_exactly_once_local_witness :
    handlePowerUpCollect (applyMsg dupCollect collectState) "d" "pu1" 0 =
      (applyMsg dupCollect collectState, none) ∧
    lookup (applyMsg (Msg.powerUpCollect "d" "pu1" dupEffect)
        (applyMsg dupCollect collectState)).players "d" =
      some { { entryD with activePowerUps := entryD.activePowerUps ++ [dupEffect] } with
        activePowerUps :=
          { entryD with activePowerUps := entryD.activePowerUps ++ [dupEffect] }.activePowerUps
            ++ [dupEffect] } :=
  c5_collect_exactly_once_local (applyMsg dupCollect collectState) "d" "pu1" 0 "d"
    dupEffect { entryD with activePowerUps := entryD.activePowerUps ++ [dupEffect] }
    (by decide) (by decide)

def healthPU : PowerUpData :=
  { id := "hp1", type := PowerUpType.health, position := v0,
    timestamp := 0, duration := 30000 }

def frameState : GameState :=
  { players := [("d", entryD)], powerUps := [("hp1", healthPU)],
    gameStatus := GameStatus.playing, roomId := "r" }

/-- C10: a successful local power-up collection changes exactly two
things — the instance is removed from the power-ups mapping and one
effect (type of the instance, expiry `now + 10000`, multiplier 1.5) is
appended to the collecting player — while every other field of every
player (including the collector health, even for a health-type
power-up), every other instance, and the remaining state fields are
unchanged; the matching collect message is published. -/
theorem c10_collect_frame (s : GameState) (me puId : String) (now : ℤ)
    (pu : PowerUpData) (e : Entry)
    (hpu : lookup s.powerUps puId = some pu)
    (he : lookup s.players me = some e) :
    lookup (handlePowerUpCollect s me puId now).1.players me =
      some { e with activePowerUps := e.activePowerUps ++
        [{ type := pu.type, endTime := now + 10000, multiplier := 3 / 2 }] } ∧
    (∀ k, k ≠ me →
      lookup (handlePowerUpCollect s me puId now).1.players k = lookup s.players k) ∧
    lookup (handlePowerUpCollect s me puId now).1.powerUps puId = none ∧
    (∀ k, k ≠ puId →
      lookup (handlePowerUpCollect s me puId now).1.powerUps k = lookup s.powerUps k) ∧
    (handlePowerUpCollect s me puId now).1.gameStatus = s.gameStatus ∧
    (handlePowerUpCollect s me puId now).1.roomId = s.roomId ∧
    (handlePowerUpCollect s me puId now).2 =
      some (Msg.powerUpCollect me puId
        { type := pu.type, endTime := now + 10000, multiplier := 3 / 2 }) := by
  have key1 : lookup (mapVal s.players me
      (fun e => { e with activePowerUps := e.activePowerUps ++
        [{ type := pu.type, endTime := now + 10000, multiplier := 3 / 2 }] })) me =
      some { e with activePowerUps := e.activePowerUps ++
        [{ type := pu.type, endTime := now + 10000, multiplier := 3 / 2 }] } := by
    rw [lookup_mapVal_self, he]
    rfl
  have key2 : ∀ k, k ≠ me → lookup (mapVal s.players me
      (fun e => { e with activePowerUps := e.activePowerUps ++
        [{ type := pu.type, endTime := now + 10000, multiplier := 3 / 2 }] })) k =
      lookup s.players k :=
    fun k hk => lookup_mapVal_other _ _ _ _ hk
  unfold handlePowerUpCollect
  rw [hpu]
  exact ⟨key1, key2, lookup_delKey_self s.powerUps puId,
    fun k hk => lookup_delKey_other s.powerUps puId k hk, rfl, rfl, rfl⟩

/-- C10 witness: collecting a health-type power-up appends exactly one
effect and leaves the collector health at 100. -/
theorem c10_collect_frame_witness :
    lookup (handlePowerUpCollect frameState "d" "hp1" 1000).1.players "d" =
      some { entryD with activePowerUps := entryD.activePowerUps ++
        [{ type := healthPU.type, endTime := (1000 : ℤ) + 10000, multiplier := 3 / 2 }] } ∧
    (lookup (handlePowerUpCollect frameState "d" "hp1" 1000).1.players "d").map
      Entry.health = some (some 100) ∧
    lookup (handlePowerUpCollect frameState "d" "hp1" 1000).1.powerUps "hp1" = none := by
  have t := c10_collect_frame frameState "d" "hp1" 1000 healthPU entryD (by decide) (by decide)
  refine ⟨t.1, ?_, t.2.2.1⟩
  rw [t.1]
  rfl

end PenFight
